import Mathlib

/-!
Typegraph: type-expression resolution, edge extraction and dot rendering

A shallow embedding of `main.go` of `insomniacslk/typegraph`.

* Go strings are modelled by Lean strings.  A Go string is a byte sequence and
  the names handed out by `go/parser` are valid UTF-8, so `len(s) == 0` is
  `s.length = 0` and `s[0]` is the first byte of the UTF-8 encoding of the first
  character (`byteAt0`).
* `fmt.Sprintf` with `%s` verbs is string concatenation; `%T` of an AST node is
  the name of its dynamic type (`OtherKind.goType`).
* `go/ast` expressions are the inductive type `Expr`.  The eight shapes the
  resolver recognises keep the sub-expressions the resolver reads; every other
  implementation of `ast.Expr` is `Expr.Other k`, of which the program only ever
  reads the dynamic type.
* `visitor` is the slice of edges; `Visit` passes it explicitly.
* Trees come from `go/parser` without errors (`visitFiles` stops at the first
  error), so the pointers the program dereferences (`TypeSpec.Name`,
  `TypeSpec.Type`, `StructType.Fields`, `Field.Type`) are never nil and are not
  optional here.
* `ast.Walk` is the library traversal: `Walk` runs it over a `Tree`, a node
  with the list of its children.  The children of a tree are arbitrary trees,
  so a statement about all trees covers every tree the parser can build.
* The parser is a parameter `parseFile` of `visitFiles` and `main`; a run of
  `main` is described by its `Outcome` (exit code, standard output, error
  channel, files handed to the parser).  `log.Fatal` and `os.Exit` end the run.
-/

namespace Typegraph

/-! ## Syntax trees (`go/ast`) -/

/-- The implementations of `ast.Expr` that neither `exprName` nor
`exprNameAndType` has a case for. -/
inductive OtherKind where
  | BadExpr | Ellipsis | BasicLit | FuncLit | CompositeLit | ParenExpr
  | IndexExpr | IndexListExpr | SliceExpr | TypeAssertExpr | CallExpr
  | UnaryExpr | BinaryExpr | KeyValueExpr | FuncType
  deriving DecidableEq, Repr

/-- What `%T` prints for a node of the given kind. -/
def OtherKind.goType : OtherKind → String
  | .BadExpr => "*ast.BadExpr"
  | .Ellipsis => "*ast.Ellipsis"
  | .BasicLit => "*ast.BasicLit"
  | .FuncLit => "*ast.FuncLit"
  | .CompositeLit => "*ast.CompositeLit"
  | .ParenExpr => "*ast.ParenExpr"
  | .IndexExpr => "*ast.IndexExpr"
  | .IndexListExpr => "*ast.IndexListExpr"
  | .SliceExpr => "*ast.SliceExpr"
  | .TypeAssertExpr => "*ast.TypeAssertExpr"
  | .CallExpr => "*ast.CallExpr"
  | .UnaryExpr => "*ast.UnaryExpr"
  | .BinaryExpr => "*ast.BinaryExpr"
  | .KeyValueExpr => "*ast.KeyValueExpr"
  | .FuncType => "*ast.FuncType"

mutual
/-- Type expressions: `ast.Expr`.  `ChanType.Dir` is the integer `ast.ChanDir`. -/
inductive Expr where
  | Ident (Name : String)
  | StarExpr (X : Expr)
  | ArrayType (Len : Option Expr) (Elt : Expr)
  | MapType (Key Value : Expr)
  | SelectorExpr (X : Expr) (Sel : String)
  | ChanType (Dir : Int) (Value : Expr)
  | StructType (Fields : List Field)
  | InterfaceType (Methods : List Field)
  | Other (k : OtherKind)
/-- One entry of a field list: `ast.Field` with its declared names and its type. -/
inductive Field where
  | mk (Names : List String) (Typ : Expr)
end

/-- The names declared by a field-list entry. -/
def Field.Names : Field → List String
  | .mk ns _ => ns

/-- The type expression of a field-list entry. -/
def Field.Typ : Field → Expr
  | .mk _ t => t

/-- Constant `ast.SEND` (`1 << iota`, first of the block). -/
def SEND : Int := 1

/-- Constant `ast.RECV`. -/
def RECV : Int := 2

/-- The remaining implementations of `ast.Node` that `Visit` never looks into. -/
inductive OtherNodeKind where
  | File | Package | GenDecl | FuncDecl | BadDecl | ImportSpec | ValueSpec
  | Stmt | Comment | CommentGroup
  deriving DecidableEq, Repr

/-- The nodes `ast.Walk` hands to a visitor, as far as `Visit` can tell them apart. -/
inductive Node where
  | TypeSpec (Name : String) (Typ : Expr)
  | ExprNode (e : Expr)
  | FieldNode (f : Field)
  | FieldListNode (fs : List Field)
  | OtherNode (k : OtherNodeKind)

/-- Syntax tree as `ast.Walk` traverses it: a node and its non-nil children in the
order `ast.Walk` visits them. -/
inductive Tree where
  | node (n : Node) (children : List Tree)

/-! ## The program -/

/-- Graph edge: `type edge struct`. -/
structure edge where
  Left : String
  Right : String
  Label : String
  deriving DecidableEq, Repr

/-- Function `exprName` of `main.go`. -/
def exprName : Expr → String
  | .Ident name => name
  | .StarExpr x => exprName x
  | .ArrayType _ elt => exprName elt
  | .MapType key value => "map[" ++ exprName key ++ "]" ++ exprName value
  | .SelectorExpr x sel => exprName x ++ "." ++ sel
  | .ChanType dir value =>
      let chtype :=
        if dir = SEND then "chan<-"
        else if dir = RECV then "<-chan"
        else "chan"
      chtype ++ " " ++ exprName value
  | .StructType _ => "struct\x7b\x7d (unknown name)"
  | .InterfaceType _ => "interface (unknown name)"
  | .Other k => "unhandled expr (" ++ k.goType ++ ")"

/-- Function `exprNameAndType` of `main.go`: resolved name and label. -/
def exprNameAndType : Expr → String × String
  | .Ident name => (name, "value")
  | .ArrayType _ elt => (exprName elt, "array")
  | .MapType key value => (exprName (.MapType key value), "map")
  | .StarExpr x => (exprName x, "ptr")
  | .SelectorExpr x sel => (exprName (.SelectorExpr x sel), "selector")
  | .ChanType dir value => (exprName (.ChanType dir value), "chan")
  | .StructType fields => (exprName (.StructType fields), "struct")
  | .InterfaceType methods => (exprName (.InterfaceType methods), "interface")
  | .Other k => ("unhandled (" ++ k.goType ++ ")", "unknown")

/-- The accumulator `type visitor []edge`. -/
abbrev visitor := List edge

/-- Method `visitor.Visit`.  The first component is the slice after the call,
the second tells whether the returned `ast.Visitor` is the receiver (`true`)
or `nil` (`false`). -/
def Visit (v : visitor) (n : Option Node) : visitor × Bool :=
  match n with
  | none => (v, false)
  | some (.TypeSpec name typ) =>
      match typ with
      | .StructType fields =>
          (fields.foldl
            (fun acc f =>
              let r := exprNameAndType f.Typ
              acc ++ [{ Left := name, Right := r.1, Label := r.2 }])
            v, true)
      | _ => (v, true)
  | some _ => (v, true)

/-- Configuration `type dotConfig struct`. -/
structure dotConfig where
  PublicOnly : Bool
  deriving DecidableEq, Repr

/-- First byte of the UTF-8 encoding of a character. -/
def utf8FirstByte (c : Char) : Nat :=
  let r := c.toNat
  if r < 0x80 then r
  else if r < 0x800 then 0xC0 + r / 0x40
  else if r < 0x10000 then 0xE0 + r / 0x1000
  else 0xF0 + r / 0x40000

/-- Go indexing `s[0]` of a non-empty string: its first byte. -/
def byteAt0 (s : String) : Nat :=
  match s.data with
  | [] => 0
  | c :: _ => utf8FirstByte c

/-- Library function `unicode.IsUpper` on the code points below 256, the only
ones a converted byte can be: the Latin-1 table marks `A`-`Z`, `U+00C0`-`U+00D6`
and `U+00D8`-`U+00DE` as upper-case letters. -/
def isUpperLatin1 (r : Nat) : Bool :=
  (0x41 ≤ r && r ≤ 0x5A) || (0xC0 ≤ r && r ≤ 0xD6) || (0xD8 ≤ r && r ≤ 0xDE)

/-- Function `public` of `main.go`. -/
def public (e : edge) : Bool :=
  if e.Left.length = 0 ∨ e.Right.length = 0 then false
  else isUpperLatin1 (byteAt0 e.Left) && isUpperLatin1 (byteAt0 e.Right)

/-- One iteration of the loop of `ToDot`: the value of `ret` after the edge `e`. -/
def ToDotStep (conf : dotConfig) (ret : String) (e : edge) : String :=
  if conf.PublicOnly && !public e then ret
  else
    let label := if e.Label ≠ "" then " [label=\"" ++ e.Label ++ "\"]" else ""
    ret ++ ("    \"" ++ e.Left ++ "\" -> \"" ++ e.Right ++ "\"" ++ label ++ "\n")

/-- Function `ToDot` of `main.go`. -/
def ToDot (edges : List edge) (conf : dotConfig) : String :=
  let ret := edges.foldl (ToDotStep conf) "DiGraph \x7b\n"
  ret ++ "\x7d\n"

mutual
/-- Library function `ast.Walk`, driving `Visit`: it calls `Visit` on the node; when the
returned visitor is not nil it walks every child with it, in order, and then calls
`Visit` with a nil node.  The result is the slice after the walk. -/
def Walk (v : visitor) : Tree → visitor
  | .node n children =>
      let r := Visit v (some n)
      if r.2 then (Visit (WalkList r.1 children) none).1 else r.1
/-- The walks of a list of children, one after the other. -/
def WalkList (v : visitor) : List Tree → visitor
  | [] => v
  | t :: ts => WalkList (Walk v t) ts
end

/-- State of a run of `visitFiles`: the file names handed to `parser.ParseFile` so far,
and either the edges collected or the error `log.Fatal` ended the process with. -/
structure VisitRun where
  parsed : List String
  result : Except String (List edge)

/-- The loop of `visitFiles`, with the external parser `parseFile` as a parameter
(`Except.error err` is a returned `err != nil`).  Every file is walked with a fresh
visitor, whose edges are appended to `edges`; an error stops the loop at once. -/
def visitFilesLoop (parseFile : String → Except String Tree)
    (edges : List edge) (parsed : List String) : List String → VisitRun
  | [] => { parsed := parsed, result := .ok edges }
  | fname :: rest =>
      match parseFile fname with
      | .error err => { parsed := parsed ++ [fname], result := .error err }
      | .ok code => visitFilesLoop parseFile (edges ++ Walk [] code) (parsed ++ [fname]) rest

/-- Function `visitFiles` of `main.go`. -/
def visitFiles (parseFile : String → Except String Tree) (fileNames : List String) :
    VisitRun :=
  visitFilesLoop parseFile [] [] fileNames

/-- What a run of the program leaves behind: the exit code, the text written to standard
output, the messages written to the error channel, and the file names handed to the
parser. -/
structure Outcome where
  exitCode : Nat
  stdout : String
  stderr : List String
  parsed : List String
  deriving DecidableEq, Repr

/-- Function `main` of `main.go`, after flag parsing: `publicOnly` is the value of the
flag `-public` and `fnames` are the positional arguments.  `fmt.Println` writes its
argument and a line break to standard output; `log.Fatal` writes the error to the error
channel and exits with code 1. -/
def main (parseFile : String → Except String Tree) (publicOnly : Bool)
    (fnames : List String) : Outcome :=
  if fnames.length = 0 then
    { exitCode := 1, stdout := "Need at least one file name" ++ "\n", stderr := [],
      parsed := [] }
  else
    let run := visitFiles parseFile fnames
    match run.result with
    | .error err => { exitCode := 1, stdout := "", stderr := [err], parsed := run.parsed }
    | .ok edges =>
        { exitCode := 0, stdout := ToDot edges { PublicOnly := publicOnly } ++ "\n",
          stderr := [], parsed := run.parsed }

/-! ## Auxiliary definitions used in the statements -/

/-- The edge `Visit` builds for one field-list entry of the declaration `name`. -/
def fieldEdge (name : String) (f : Field) : edge :=
  { Left := name, Right := (exprNameAndType f.Typ).1, Label := (exprNameAndType f.Typ).2 }

/-- The outermost node is one of the eight shapes the resolver has a case for. -/
def recognised : Expr → Bool
  | .Other _ => false
  | _ => true

/-- The expression is built from identifiers, pointers, arrays and maps only. -/
def identPtrArrayMap : Expr → Bool
  | .Ident _ => true
  | .StarExpr x => identPtrArrayMap x
  | .ArrayType _ elt => identPtrArrayMap elt
  | .MapType key value => identPtrArrayMap key && identPtrArrayMap value
  | _ => false

/-- Remove every leading pointer and array wrapper of an expression. -/
def stripWrappers : Expr → Expr
  | .StarExpr x => stripWrappers x
  | .ArrayType _ elt => stripWrappers elt
  | e => e

/-- The output line of one edge as the format is described: four spaces, the quoted
endpoints around an arrow, the bracketed label attribute when the label is non-empty,
and a line break. -/
def dotLine (e : edge) : String :=
  "    " ++ "\"" ++ e.Left ++ "\" -> \"" ++ e.Right ++ "\""
    ++ (if e.Label = "" then "" else " [label=\"" ++ e.Label ++ "\"]") ++ "\n"

/-- The outermost node shapes of a type expression. -/
inductive Shape where
  | Ident | StarExpr | ArrayType | MapType | SelectorExpr | ChanType | StructType
  | InterfaceType | Other
  deriving DecidableEq, Repr

/-- The outermost node shape of a type expression. -/
def shape : Expr → Shape
  | .Ident _ => .Ident
  | .StarExpr _ => .StarExpr
  | .ArrayType _ _ => .ArrayType
  | .MapType _ _ => .MapType
  | .SelectorExpr _ _ => .SelectorExpr
  | .ChanType _ _ => .ChanType
  | .StructType _ => .StructType
  | .InterfaceType _ => .InterfaceType
  | .Other _ => .Other

/-- The kind tag that belongs to an outermost node shape. -/
def Shape.label : Shape → String
  | .Ident => "value"
  | .StarExpr => "ptr"
  | .ArrayType => "array"
  | .MapType => "map"
  | .SelectorExpr => "selector"
  | .ChanType => "chan"
  | .StructType => "struct"
  | .InterfaceType => "interface"
  | .Other => "unknown"

/-- Every identifier the resolver reads in the expression has a non-empty name. -/
def identsNonEmpty : Expr → Bool
  | .Ident name => name ≠ ""
  | .StarExpr x => identsNonEmpty x
  | .ArrayType _ elt => identsNonEmpty elt
  | .MapType key value => identsNonEmpty key && identsNonEmpty value
  | .SelectorExpr x sel => identsNonEmpty x && sel ≠ ""
  | .ChanType _ value => identsNonEmpty value
  | _ => true

/-- The edges of one declaration: those of the field-list entries of a struct type
declaration, none for any other node. -/
def declEdges : Node → List edge
  | .TypeSpec name (.StructType fields) => fields.map (fieldEdge name)
  | _ => []

mutual
/-- The nodes of a tree in depth-first pre-order. -/
def preorder : Tree → List Node
  | .node n children => n :: preorderList children
/-- The nodes of a list of trees in depth-first pre-order, tree after tree. -/
def preorderList : List Tree → List Node
  | [] => []
  | t :: ts => preorder t ++ preorderList ts
end

/-- The number of fields a struct type declares when every declared name counts: the
sum over the field-list entries of the number of names of the entry. -/
def namedFieldCount (fields : List Field) : Nat :=
  (fields.map (fun f => f.Names.length)).sum

/-- The string holds no double-quote and no line break. -/
def plainText (s : String) : Bool :=
  !s.data.contains '"' && !s.data.contains '\n'

/-- No field of the edge holds a double-quote or a line break. -/
def wellFormed (e : edge) : Bool :=
  plainText e.Left && plainText e.Right && plainText e.Label

/-- Example tree, of a file that declares `type A struct` with the fields `B int`,
`C []*D`, `E map[string]F` at top level and `type local struct` with the field `X Y`
inside a function body. -/
def exampleFileA : Tree :=
  .node (.OtherNode .File)
    [ .node (.OtherNode .GenDecl)
        [ .node (.TypeSpec "A" (.StructType
            [ .mk ["B"] (.Ident "int"),
              .mk ["C"] (.ArrayType none (.StarExpr (.Ident "D"))),
              .mk ["E"] (.MapType (.Ident "string") (.Ident "F")) ]))
            [ .node (.ExprNode (.Ident "A")) [] ] ],
      .node (.OtherNode .FuncDecl)
        [ .node (.OtherNode .Stmt)
            [ .node (.OtherNode .Stmt)
                [ .node (.OtherNode .GenDecl)
                    [ .node (.TypeSpec "local" (.StructType [ .mk ["X"] (.Ident "Y") ]))
                        [] ] ] ] ] ]

/-- Example tree, of a file that declares an interface and `type G struct` with the
field `H chan int`. -/
def exampleFileB : Tree :=
  .node (.OtherNode .File)
    [ .node (.OtherNode .GenDecl)
        [ .node (.TypeSpec "Reader" (.InterfaceType [ .mk ["Read"] (.Other .FuncType) ])) [],
          .node (.TypeSpec "G" (.StructType [ .mk ["H"] (.ChanType 3 (.Ident "int")) ]))
            [] ] ]

/-- Example parser: `a.go` and `b.go` parse to the example trees, every other file name
is a syntax error. -/
def exampleParser (fname : String) : Except String Tree :=
  if fname = "a.go" then .ok exampleFileA
  else if fname = "b.go" then .ok exampleFileB
  else .error "expected 'package', found 'EOF'"

/-- The characters of the label attribute of an edge in its output line: none for an
empty label. -/
def labelChars (e : edge) : List Char :=
  if e.Label = "" then [] else " [label=\"".data ++ e.Label.data ++ "\"]".data

/-! ## Edge extraction -/

theorem foldl_append_fieldEdge (name : String) (fields : List Field) (v : visitor) :
    fields.foldl
      (fun acc f =>
        let r := exprNameAndType f.Typ
        acc ++ [{ Left := name, Right := r.1, Label := r.2 }]) v
      = v ++ fields.map (fieldEdge name) := by
  induction fields generalizing v with
  | nil => simp
  | cons f fs ih =>
      simp only [List.foldl_cons, List.map_cons]
      rw [ih]
      simp [fieldEdge]

/-- C1: for a type declaration `N` whose type is a struct, `Visit` appends to the prior
edge list exactly one edge per field-list entry, in field order, the i-th being
`(N, r_i, k_i)` with `(r_i, k_i) = exprNameAndType` of the entry's type; the prior edges
stay unchanged in front.  The struct `A` with fields `B int`, `C []*D`, `E map[string]F`
yields `(A,int,value)`, `(A,D,array)`, `(A,map[string]F,map)`. -/
theorem Visit_struct_appends_field_edges :
    (∀ (N : String) (fields : List Field) (v : visitor),
      (Visit v (some (.TypeSpec N (.StructType fields)))).1
          = v ++ fields.map
              (fun f => { Left := N, Right := (exprNameAndType f.Typ).1,
                          Label := (exprNameAndType f.Typ).2 })
        ∧ ((Visit v (some (.TypeSpec N (.StructType fields)))).1).length
            = v.length + fields.length
        ∧ (Visit v (some (.TypeSpec N (.StructType fields)))).2 = true)
    ∧ (Visit [] (some (.TypeSpec "A" (.StructType
        [ .mk ["B"] (.Ident "int"),
          .mk ["C"] (.ArrayType none (.StarExpr (.Ident "D"))),
          .mk ["E"] (.MapType (.Ident "string") (.Ident "F")) ])))).1
        = [ { Left := "A", Right := "int", Label := "value" },
            { Left := "A", Right := "D", Label := "array" },
            { Left := "A", Right := "map[string]F", Label := "map" } ] := by
  refine ⟨fun N fields v => ?_, by decide⟩
  have h : (Visit v (some (.TypeSpec N (.StructType fields)))).1
      = v ++ fields.map (fieldEdge N) := by
    simp only [Visit]
    exact foldl_append_fieldEdge N fields v
  refine ⟨?_, ?_, rfl⟩
  · rw [h]; rfl
  · rw [h]; simp

/-! ## Type-expression resolution -/

/-- C2: wrapper transparency on identifiers: `T`, pointer-to-`T` and array-of-`T` all
resolve to the name `T`, with labels `value`, `ptr` and `array`. -/
theorem wrapper_transparency_ident (T : String) (len : Option Expr) :
    exprNameAndType (.Ident T) = (T, "value")
    ∧ exprNameAndType (.StarExpr (.Ident T)) = (T, "ptr")
    ∧ exprNameAndType (.ArrayType len (.Ident T)) = (T, "array") :=
  ⟨rfl, rfl, rfl⟩

/-- Under a pointer or an array the resolver always reports `exprName` of the
wrapped expression. -/
theorem exprNameAndType_wrapper_fst (X : Expr) (len : Option Expr) :
    (exprNameAndType (.StarExpr X)).1 = exprName X
    ∧ (exprNameAndType (.ArrayType len X)).1 = exprName X :=
  ⟨rfl, rfl⟩

/-- On a recognised shape the resolver reports the name `exprName` computes. -/
theorem exprNameAndType_fst_of_recognised (X : Expr) (h : recognised X = true) :
    (exprNameAndType X).1 = exprName X := by
  cases X <;> first | rfl | simp [recognised] at h

/-- C3, as stated, fails at the unrecognised shape `func()`: its pointer and its array
resolve to the name `unhandled expr (*ast.FuncType)`, the fallback of `exprName`, while the
expression itself resolves to `unhandled (*ast.FuncType)`, the fallback of
`exprNameAndType`. -/
theorem wrapper_name_differs_on_unrecognised :
    (exprNameAndType (.StarExpr (.Other .FuncType))).1 = "unhandled expr (*ast.FuncType)"
    ∧ (exprNameAndType (.ArrayType none (.Other .FuncType))).1
        = "unhandled expr (*ast.FuncType)"
    ∧ (exprNameAndType (.Other .FuncType)).1 = "unhandled (*ast.FuncType)"
    ∧ (exprNameAndType (.StarExpr (.Other .FuncType))).1
        ≠ (exprNameAndType (.Other .FuncType)).1
    ∧ (exprNameAndType (.ArrayType none (.Other .FuncType))).1
        ≠ (exprNameAndType (.Other .FuncType)).1 := by
  decide

/-- C3, amended: for every type expression `X` whose outermost node is one of the eight
recognised shapes, pointer-to-`X` and array-of-`X` resolve to the same name as `X`
itself, with labels `ptr` and `array`. -/
theorem wrapper_name_eq_of_recognised (X : Expr) (len : Option Expr)
    (h : recognised X = true) :
    (exprNameAndType (.StarExpr X)).1 = (exprNameAndType X).1
    ∧ (exprNameAndType (.ArrayType len X)).1 = (exprNameAndType X).1
    ∧ (exprNameAndType (.StarExpr X)).2 = "ptr"
    ∧ (exprNameAndType (.ArrayType len X)).2 = "array" := by
  have hx := exprNameAndType_fst_of_recognised X h
  exact ⟨hx.symm, hx.symm, rfl, rfl⟩

theorem wrapper_name_eq_of_recognised_witness :
    recognised (.MapType (.Ident "string") (.StarExpr (.Ident "F"))) = true
    ∧ ((exprNameAndType (.StarExpr (.MapType (.Ident "string") (.StarExpr (.Ident "F"))))).1
          = (exprNameAndType (.MapType (.Ident "string") (.StarExpr (.Ident "F")))).1
        ∧ (exprNameAndType
            (.ArrayType none (.MapType (.Ident "string") (.StarExpr (.Ident "F"))))).1
          = (exprNameAndType (.MapType (.Ident "string") (.StarExpr (.Ident "F")))).1
        ∧ (exprNameAndType (.StarExpr (.MapType (.Ident "string") (.StarExpr (.Ident "F"))))).2
          = "ptr"
        ∧ (exprNameAndType
            (.ArrayType none (.MapType (.Ident "string") (.StarExpr (.Ident "F"))))).2
          = "array") :=
  ⟨rfl, wrapper_name_eq_of_recognised (.MapType (.Ident "string") (.StarExpr (.Ident "F")))
    none rfl⟩

theorem exprName_stripWrappers : ∀ e : Expr, exprName (stripWrappers e) = exprName e
  | .StarExpr x => by
      simpa [stripWrappers, exprName] using exprName_stripWrappers x
  | .ArrayType _ elt => by
      simpa [stripWrappers, exprName] using exprName_stripWrappers elt
  | .Ident _ => rfl
  | .MapType _ _ => rfl
  | .SelectorExpr _ _ => rfl
  | .ChanType _ _ => rfl
  | .StructType _ => rfl
  | .InterfaceType _ => rfl
  | .Other _ => rfl

theorem stripWrappers_shape : ∀ e : Expr, identPtrArrayMap e = true →
    (∃ n, stripWrappers e = .Ident n)
    ∨ (∃ k v, stripWrappers e = .MapType k v
        ∧ identPtrArrayMap k = true ∧ identPtrArrayMap v = true)
  | .StarExpr x, h => by
      simpa [stripWrappers] using stripWrappers_shape x (by simpa [identPtrArrayMap] using h)
  | .ArrayType _ elt, h => by
      simpa [stripWrappers] using stripWrappers_shape elt (by simpa [identPtrArrayMap] using h)
  | .Ident n, _ => Or.inl ⟨n, rfl⟩
  | .MapType k v, h => by
      have h2 : identPtrArrayMap k = true ∧ identPtrArrayMap v = true := by
        simpa [identPtrArrayMap] using h
      exact Or.inr ⟨k, v, rfl, h2.1, h2.2⟩
  | .SelectorExpr _ _, h => by simp [identPtrArrayMap] at h
  | .ChanType _ _, h => by simp [identPtrArrayMap] at h
  | .StructType _, h => by simp [identPtrArrayMap] at h
  | .InterfaceType _, h => by simp [identPtrArrayMap] at h
  | .Other _, h => by simp [identPtrArrayMap] at h

/-- C4: map composition: for `K` and `V` built from identifiers, pointers, arrays and maps,
`map[K]V` resolves to label `map` and name `map[` nameK `]` nameV, where nameK and nameV
are the recursively resolved names of `K` and `V`; these are the names of `K` and `V` with
all leading pointer and array wrappers stripped, and what remains is an identifier or a
map of the same kind. -/
theorem map_composition (K V : Expr)
    (hK : identPtrArrayMap K = true) (hV : identPtrArrayMap V = true) :
    exprNameAndType (.MapType K V) = ("map[" ++ exprName K ++ "]" ++ exprName V, "map")
    ∧ exprName K = exprName (stripWrappers K)
    ∧ exprName V = exprName (stripWrappers V)
    ∧ ((∃ n, stripWrappers K = .Ident n ∧ exprName K = n)
        ∨ (∃ k v, stripWrappers K = .MapType k v
            ∧ identPtrArrayMap k = true ∧ identPtrArrayMap v = true
            ∧ exprName K = "map[" ++ exprName k ++ "]" ++ exprName v))
    ∧ ((∃ n, stripWrappers V = .Ident n ∧ exprName V = n)
        ∨ (∃ k v, stripWrappers V = .MapType k v
            ∧ identPtrArrayMap k = true ∧ identPtrArrayMap v = true
            ∧ exprName V = "map[" ++ exprName k ++ "]" ++ exprName v)) := by
  have key : ∀ e : Expr, identPtrArrayMap e = true →
      ((∃ n, stripWrappers e = .Ident n ∧ exprName e = n)
        ∨ (∃ k v, stripWrappers e = .MapType k v
            ∧ identPtrArrayMap k = true ∧ identPtrArrayMap v = true
            ∧ exprName e = "map[" ++ exprName k ++ "]" ++ exprName v)) := by
    intro e he
    rcases stripWrappers_shape e he with ⟨n, hn⟩ | ⟨k, v, hkv, hk, hv⟩
    · left
      refine ⟨n, hn, ?_⟩
      rw [← exprName_stripWrappers e, hn]; rfl
    · right
      refine ⟨k, v, hkv, hk, hv, ?_⟩
      rw [← exprName_stripWrappers e, hkv]; rfl
  exact ⟨rfl, (exprName_stripWrappers K).symm, (exprName_stripWrappers V).symm,
    key K hK, key V hV⟩

theorem map_composition_witness :
    identPtrArrayMap (.Ident "string") = true
    ∧ identPtrArrayMap (.ArrayType none (.StarExpr (.Ident "F"))) = true
    ∧ exprNameAndType
          (.MapType (.Ident "string") (.ArrayType none (.StarExpr (.Ident "F"))))
        = ("map[" ++ "string" ++ "]" ++ "F", "map")
    ∧ "map[" ++ "string" ++ "]" ++ "F" = "map[string]F" :=
  ⟨rfl, rfl,
   (map_composition (.Ident "string") (.ArrayType none (.StarExpr (.Ident "F"))) rfl rfl).1,
   by decide⟩

/-- C5: qualified reference: for identifiers `P` and `X` the selector `P.X` resolves to
the name `P` followed by a dot and `X`, with label `selector`. -/
theorem selector_resolution (P X : String) :
    exprNameAndType (.SelectorExpr (.Ident P) X) = (P ++ "." ++ X, "selector") :=
  rfl

/-- The names of a send-only, a receive-only and a bidirectional channel of one element
start differently. -/
theorem chan_prefix_ne (n : String) :
    "chan<-" ++ " " ++ n ≠ "<-chan" ++ " " ++ n
    ∧ "chan<-" ++ " " ++ n ≠ "chan" ++ " " ++ n
    ∧ "<-chan" ++ " " ++ n ≠ "chan" ++ " " ++ n := by
  refine ⟨?_, ?_, ?_⟩ <;>
    · intro h
      have h2 := congrArg String.data h
      simp only [String.data_append] at h2
      revert h2
      simp

/-- C6: a channel of `X` resolves to label `chan` and to the name made of the direction
symbol, a space and `exprName X`; the symbol is `chan<-` for a send-only channel,
`<-chan` for a receive-only one and `chan` otherwise (bidirectional); the three symbols
differ pairwise and so do the three names over one element. -/
theorem chan_resolution (X : Expr) (dir : Int) (hs : dir ≠ SEND) (hr : dir ≠ RECV) :
    exprNameAndType (.ChanType SEND X) = ("chan<-" ++ " " ++ exprName X, "chan")
    ∧ exprNameAndType (.ChanType RECV X) = ("<-chan" ++ " " ++ exprName X, "chan")
    ∧ exprNameAndType (.ChanType dir X) = ("chan" ++ " " ++ exprName X, "chan")
    ∧ ("chan<-" ≠ "<-chan" ∧ "chan<-" ≠ "chan" ∧ "<-chan" ≠ "chan")
    ∧ (exprNameAndType (.ChanType SEND X)).1 ≠ (exprNameAndType (.ChanType RECV X)).1
    ∧ (exprNameAndType (.ChanType SEND X)).1 ≠ (exprNameAndType (.ChanType dir X)).1
    ∧ (exprNameAndType (.ChanType RECV X)).1 ≠ (exprNameAndType (.ChanType dir X)).1 := by
  have e1 : exprNameAndType (.ChanType SEND X) = ("chan<-" ++ " " ++ exprName X, "chan") := rfl
  have e2 : exprNameAndType (.ChanType RECV X) = ("<-chan" ++ " " ++ exprName X, "chan") := rfl
  have e3 : exprNameAndType (.ChanType dir X) = ("chan" ++ " " ++ exprName X, "chan") := by
    simp [exprNameAndType, exprName, hs, hr]
  have hne := chan_prefix_ne (exprName X)
  refine ⟨e1, e2, e3, ⟨by decide, by decide, by decide⟩, ?_, ?_, ?_⟩
  · rw [e1, e2]; exact hne.1
  · rw [e1, e3]; exact hne.2.1
  · rw [e2, e3]; exact hne.2.2

theorem chan_resolution_witness :
    (3 : Int) ≠ SEND ∧ (3 : Int) ≠ RECV
    ∧ exprNameAndType (.ChanType 3 (.StarExpr (.Ident "T"))) = ("chan" ++ " " ++ "T", "chan")
    ∧ exprNameAndType (.ChanType SEND (.StarExpr (.Ident "T"))) = ("chan<- T", "chan")
    ∧ exprNameAndType (.ChanType RECV (.StarExpr (.Ident "T"))) = ("<-chan T", "chan") :=
  ⟨by decide, by decide,
   (chan_resolution (.StarExpr (.Ident "T")) 3 (by decide) (by decide)).2.2.1,
   by decide, by decide⟩

/-- C7: a node that is not a type declaration whose type is a struct (so: a type
declaration of an alias, a basic type, an interface, a function type, or a node that is no
type declaration at all) leaves the accumulated edge list exactly as it was, and `Visit`
returns the same visitor. -/
theorem Visit_non_struct_no_edges (v : visitor) (n : Node)
    (h : ∀ N fields, n ≠ .TypeSpec N (.StructType fields)) :
    (Visit v (some n)).1 = v ∧ (Visit v (some n)).2 = true := by
  cases n with
  | TypeSpec N t =>
      cases t <;> first | exact ⟨rfl, rfl⟩ | exact absurd rfl (h _ _)
  | _ => exact ⟨rfl, rfl⟩

theorem Visit_non_struct_no_edges_witness :
    (∀ N fields, Node.TypeSpec "Reader"
        (.InterfaceType [.mk ["Read"] (.Other .FuncType)]) ≠ .TypeSpec N (.StructType fields))
    ∧ (Visit [{ Left := "A", Right := "int", Label := "value" }]
        (some (.TypeSpec "Reader" (.InterfaceType [.mk ["Read"] (.Other .FuncType)])))).1
        = [{ Left := "A", Right := "int", Label := "value" }]
    ∧ (Visit [{ Left := "A", Right := "int", Label := "value" }]
        (some (.TypeSpec "Reader" (.InterfaceType [.mk ["Read"] (.Other .FuncType)])))).2
        = true :=
  ⟨fun _ _ h => (by injection h with _ h2; cases h2),
   Visit_non_struct_no_edges [{ Left := "A", Right := "int", Label := "value" }]
    (.TypeSpec "Reader" (.InterfaceType [.mk ["Read"] (.Other .FuncType)]))
    (fun _ _ h => (by injection h with _ h2; cases h2))⟩

/-! ## Visibility filter -/

/-- What `public` computes: both names are non-empty and the first byte of each, read as
a Latin-1 code point, is an upper-case letter. -/
theorem public_iff (e : edge) :
    public e = true ↔
      ∃ l ls r rs, e.Left.data = l :: ls ∧ e.Right.data = r :: rs
        ∧ isUpperLatin1 (utf8FirstByte l) = true ∧ isUpperLatin1 (utf8FirstByte r) = true := by
  obtain ⟨⟨L⟩, ⟨R⟩, lab⟩ := e
  cases L with
  | nil => simp [public, String.length]
  | cons l ls =>
      cases R with
      | nil => simp [public, String.length]
      | cons r rs => simp [public, String.length, byteAt0]

/-- On a first character in the ASCII range the byte test of `public` is the test for an
upper-case letter `A`-`Z`. -/
theorem isUpperLatin1_ascii (c : Char) (h : c.toNat < 0x80) :
    isUpperLatin1 (utf8FirstByte c) = c.isUpper := by
  have h1 : utf8FirstByte c = c.toNat := by simp [utf8FirstByte, h]
  have hv : c.val.toBitVec.toNat = c.toNat := rfl
  have e65 : (UInt32.toBitVec 65).toNat = 65 := rfl
  have e90 : (UInt32.toBitVec 90).toNat = 90 := rfl
  rw [h1, Bool.eq_iff_iff]
  simp only [isUpperLatin1, Char.isUpper, ge_iff_le, UInt32.le_def, BitVec.le_def,
    Bool.or_eq_true, Bool.and_eq_true, decide_eq_true_eq, e65, e90, hv]
  omega

/-- C8: evaluation of `public` at names that start outside ASCII.  `état` starts with the
lower-case letter U+00E9, whose first UTF-8 byte 0xC3 is an upper-case letter when read as
a code point, so the edge passes; `Ḁlpha` starts with the upper-case letter U+1E00, whose
first byte 0xE1 reads as a lower-case letter, so the edge is dropped.  The ASCII examples
of the claim evaluate as stated. -/
theorem public_reads_first_byte :
    public { Left := "état", Right := "Widget", Label := "value" } = true
    ∧ "état".data.head? = some (Char.ofNat 0xE9)
    ∧ byteAt0 "état" = 0xC3
    ∧ public { Left := "Ḁlpha", Right := "Widget", Label := "value" } = false
    ∧ "Ḁlpha".data.head? = some (Char.ofNat 0x1E00)
    ∧ byteAt0 "Ḁlpha" = 0xE1
    ∧ public { Left := "helper", Right := "Widget", Label := "value" } = false
    ∧ public { Left := "Helper", Right := "Widget", Label := "value" } = true := by
  decide

/-! ## Rendering -/

/-- The text one loop iteration of `ToDot` appends for an edge it does not skip. -/
theorem ToDotStep_unfiltered (ret : String) (e : edge) :
    ToDotStep { PublicOnly := false } ret e = ret ++ dotLine e := by
  unfold ToDotStep dotLine
  by_cases hl : e.Label = "" <;> simp [hl]

theorem ToDotStep_filtered (ret : String) (e : edge) :
    ToDotStep { PublicOnly := true } ret e
      = if public e = true then ToDotStep { PublicOnly := false } ret e else ret := by
  unfold ToDotStep
  by_cases hp : public e = true <;> simp [hp]

theorem join_cons (x : String) (xs : List String) :
    String.join (x :: xs) = x ++ String.join xs := by
  apply String.ext
  simp [String.data_join]

/-- The accumulating loop of `ToDot` without filter appends the lines of all edges. -/
theorem foldl_unfiltered (es : List edge) (acc : String) :
    es.foldl (ToDotStep { PublicOnly := false }) acc
      = acc ++ String.join (es.map dotLine) := by
  induction es generalizing acc with
  | nil => simp [String.join]
  | cons e es ih =>
      simp only [List.foldl_cons, List.map_cons, join_cons]
      rw [ih, ToDotStep_unfiltered, String.append_assoc]

/-- The filtering loop of `ToDot` is the unfiltered loop over the public edges. -/
theorem foldl_filtered (es : List edge) (acc : String) :
    es.foldl (ToDotStep { PublicOnly := true }) acc
      = (es.filter (fun e => public e)).foldl (ToDotStep { PublicOnly := false }) acc := by
  induction es generalizing acc with
  | nil => rfl
  | cons e es ih =>
      simp only [List.foldl_cons, List.filter_cons]
      rw [ih, ToDotStep_filtered]
      by_cases hp : public e = true <;> simp [hp]

/-- C9: renderer format: without the filter, `ToDot` returns the header line, then for
each edge in order its line (four spaces, quoted `Left`, arrow, quoted `Right`, the label
attribute when `Label` is non-empty, line break), then the closing line; nothing is
skipped or escaped, and the empty list renders as header and closing line only. -/
theorem ToDot_format (es : List edge) :
    ToDot es { PublicOnly := false }
        = "DiGraph \x7b\n" ++ String.join (es.map dotLine) ++ "\x7d\n"
    ∧ (es.map dotLine).length = es.length
    ∧ ToDot [] { PublicOnly := false } = "DiGraph \x7b\n\x7d\n" := by
  refine ⟨?_, by simp, by decide⟩
  simp only [ToDot]
  rw [foldl_unfiltered]

/-- C10: filtering is a view applied at render time: rendering with `PublicOnly` set is
rendering, without the filter, the sub-sequence of the edges for which `public` holds, in
their original order. -/
theorem ToDot_publicOnly_eq_filter (es : List edge) :
    ToDot es { PublicOnly := true }
      = ToDot (es.filter (fun e => public e)) { PublicOnly := false } := by
  simp only [ToDot]
  rw [foldl_filtered]

/-! ## Totality and closed set of kinds -/

/-- C11: the resolver is a total function whose label is one of the nine kind tags and is
determined by the outermost node shape alone: `value`, `ptr`, `array`, `map`, `selector`,
`chan`, `struct`, `interface` for identifier, pointer, array, map, selector, channel,
struct type and interface type, and `unknown` exactly when the outermost node is none of
these eight. -/
theorem resolver_total_closed_kinds (e : Expr) :
    (exprNameAndType e).2 = (shape e).label
    ∧ (exprNameAndType e).2 ∈
        ["value", "ptr", "array", "map", "selector", "chan", "struct", "interface", "unknown"]
    ∧ ((exprNameAndType e).2 = "unknown" ↔ shape e = .Other)
    ∧ ((exprNameAndType e).2 = "unknown" ↔ recognised e = false) := by
  cases e <;> refine ⟨rfl, ?_, ?_, ?_⟩ <;> simp [exprNameAndType, shape, recognised]

/-! ## Non-empty names -/

theorem length_pos_of_ne_empty (s : String) (h : s ≠ "") : 0 < s.length := by
  obtain ⟨l⟩ := s
  cases l with
  | nil => exact absurd rfl h
  | cons c cs => simp [String.length]

theorem ne_empty_of_length_pos (s : String) (h : 0 < s.length) : s ≠ "" := by
  intro hs
  rw [hs] at h
  exact absurd h (by decide)

/-- The name `exprName` computes has at least one character when the identifiers it reads
have. -/
theorem exprName_length_pos : ∀ e : Expr, identsNonEmpty e = true → 0 < (exprName e).length
  | .Ident name, h => by
      have hn : name ≠ "" := by simpa [identsNonEmpty] using h
      exact length_pos_of_ne_empty name hn
  | .StarExpr x, h => by
      have hx : identsNonEmpty x = true := by simpa [identsNonEmpty] using h
      simpa [exprName] using exprName_length_pos x hx
  | .ArrayType _ elt, h => by
      have hx : identsNonEmpty elt = true := by simpa [identsNonEmpty] using h
      simpa [exprName] using exprName_length_pos elt hx
  | .MapType _ _, _ => by
      have h4 : "map[".length = 4 := by decide
      simp only [exprName, String.length_append, h4]
      omega
  | .SelectorExpr _ _, _ => by
      have h1 : ".".length = 1 := by decide
      simp only [exprName, String.length_append, h1]
      omega
  | .ChanType _ _, _ => by
      have h1 : " ".length = 1 := by decide
      simp only [exprName, String.length_append, h1]
      omega
  | .StructType _, _ => by
      simp only [exprName]
      decide
  | .InterfaceType _, _ => by
      simp only [exprName]
      decide
  | .Other _, _ => by
      have h1 : "unhandled expr (".length = 16 := by decide
      simp only [exprName, String.length_append, h1]
      omega

/-- C12: `Right` is never empty: for a type expression in which every identifier has a
non-empty name, `exprName` and `exprNameAndType` return a non-empty name, hence the edge
`Visit` emits for a field of that type has a non-empty `Right`. -/
theorem right_never_empty (e : Expr) (h : identsNonEmpty e = true) :
    exprName e ≠ ""
    ∧ (exprNameAndType e).1 ≠ ""
    ∧ ∀ (N : String) (names : List String) (v : visitor),
        ∃ r : edge,
          (Visit v (some (.TypeSpec N (.StructType [.mk names e])))).1 = v ++ [r]
          ∧ r.Left = N ∧ r.Right ≠ "" := by
  have h1 : exprName e ≠ "" := ne_empty_of_length_pos _ (exprName_length_pos e h)
  have h2 : (exprNameAndType e).1 ≠ "" := by
    by_cases hr : recognised e = true
    · rw [exprNameAndType_fst_of_recognised e hr]; exact h1
    · cases e with
      | Other k =>
          apply ne_empty_of_length_pos
          have h10 : "unhandled (".length = 11 := by decide
          simp only [exprNameAndType, String.length_append, h10]
          omega
      | _ => exact absurd rfl hr
  refine ⟨h1, h2, fun N names v => ⟨fieldEdge N (.mk names e), ?_, rfl, h2⟩⟩
  simp only [Visit]
  rw [foldl_append_fieldEdge]
  rfl

theorem right_never_empty_witness :
    identsNonEmpty (.MapType (.Ident "string") (.StarExpr (.Ident "F"))) = true
    ∧ exprName (.MapType (.Ident "string") (.StarExpr (.Ident "F"))) ≠ ""
    ∧ (exprNameAndType (.MapType (.Ident "string") (.StarExpr (.Ident "F")))).1 ≠ "" :=
  ⟨by decide,
   (right_never_empty (.MapType (.Ident "string") (.StarExpr (.Ident "F"))) (by decide)).1,
   (right_never_empty (.MapType (.Ident "string") (.StarExpr (.Ident "F"))) (by decide)).2.1⟩

/-! ## Walking whole trees -/

/-- On a node `Visit` appends the edges of the declaration and returns the receiver. -/
theorem Visit_some (v : visitor) (n : Node) :
    Visit v (some n) = (v ++ declEdges n, true) := by
  cases n with
  | TypeSpec N t =>
      cases t with
      | StructType fields =>
          simp only [Visit, declEdges]
          rw [foldl_append_fieldEdge]
      | _ => simp [Visit, declEdges]
  | _ => simp [Visit, declEdges]

mutual
/-- A walk appends the edges of the declarations of the tree in pre-order. -/
theorem Walk_eq_preorder : ∀ (t : Tree) (v : visitor),
    Walk v t = v ++ (preorder t).flatMap declEdges
  | .node n children, v => by
      simp only [Walk, Visit_some, if_true, preorder, List.flatMap_cons]
      rw [WalkList_eq_preorder children (v ++ declEdges n)]
      simp [Visit, List.append_assoc]
/-- The walks of a list of trees append the edges of their declarations, tree after
tree. -/
theorem WalkList_eq_preorder : ∀ (ts : List Tree) (v : visitor),
    WalkList v ts = v ++ (preorderList ts).flatMap declEdges
  | [], v => by simp [WalkList, preorderList]
  | t :: ts, v => by
      simp only [WalkList, preorderList, List.flatMap_append]
      rw [WalkList_eq_preorder ts (Walk v t), Walk_eq_preorder t v]
      simp [List.append_assoc]
end

/-- The loop of `visitFiles` over files that all parse: every name is handed to the
parser and the edges of the trees are appended file after file. -/
theorem visitFilesLoop_ok (parseFile : String → Except String Tree) :
    ∀ (fnames : List String) (trees : List Tree) (edges : List edge) (parsed : List String),
      fnames.map parseFile = trees.map Except.ok →
      visitFilesLoop parseFile edges parsed fnames
        = { parsed := parsed ++ fnames,
            result := .ok (edges ++ trees.flatMap (fun t => Walk [] t)) }
  | [], [], edges, parsed, _ => by simp [visitFilesLoop]
  | [], _ :: _, _, _, h => by simp at h
  | _ :: _, [], _, _, h => by simp at h
  | f :: fs, t :: ts, edges, parsed, h => by
      have h2 : parseFile f = .ok t ∧ fs.map parseFile = ts.map Except.ok := by
        simpa using h
      simp only [visitFilesLoop, h2.1]
      rw [visitFilesLoop_ok parseFile fs ts _ _ h2.2]
      simp [List.append_assoc]

/-- The loop of `visitFiles` stops at the first file that does not parse. -/
theorem visitFilesLoop_error (parseFile : String → Except String Tree)
    (bad : String) (post : List String) (err : String) (hbad : parseFile bad = .error err) :
    ∀ (pre : List String) (trees : List Tree) (edges : List edge) (parsed : List String),
      pre.map parseFile = trees.map Except.ok →
      visitFilesLoop parseFile edges parsed (pre ++ bad :: post)
        = { parsed := parsed ++ pre ++ [bad], result := .error err }
  | [], [], edges, parsed, _ => by simp [visitFilesLoop, hbad]
  | [], _ :: _, _, _, h => by simp at h
  | _ :: _, [], _, _, h => by simp at h
  | f :: fs, t :: ts, edges, parsed, h => by
      have h2 : parseFile f = .ok t ∧ fs.map parseFile = ts.map Except.ok := by
        simpa using h
      rw [List.cons_append]
      simp only [visitFilesLoop, h2.1]
      rw [visitFilesLoop_error parseFile bad post err hbad fs ts _ _ h2.2]
      simp [List.append_assoc]

/-- C13: whole-tree, depth-first collection: `Visit` returns the receiver for every node
and nil only for a nil node, so the walk is never pruned; the edges collected for a
tree are the concatenation, in depth-first pre-order, of the edge lists of the
declarations at all its nodes (those `Visit` alone emits at the node: the field edges of
a struct type declaration, none elsewhere), however deep the node lies; the edges of
several units that parse are the concatenation of the per-unit lists in the order the
units were supplied. -/
theorem walk_collects_preorder (parseFile : String → Except String Tree)
    (fnames : List String) (trees : List Tree)
    (hparse : fnames.map parseFile = trees.map Except.ok) (v : visitor) (n : Node)
    (t : Tree) :
    (Visit v (some n)).2 = true
    ∧ Visit v none = (v, false)
    ∧ (Visit [] (some n)).1 = declEdges n
    ∧ Walk v t = v ++ (preorder t).flatMap declEdges
    ∧ (visitFiles parseFile fnames).result
        = .ok (trees.flatMap (fun u => (preorder u).flatMap declEdges))
    ∧ (visitFiles parseFile fnames).parsed = fnames := by
  have hv := Visit_some v n
  have hv0 := Visit_some [] n
  have hrun := visitFilesLoop_ok parseFile fnames trees [] [] hparse
  have hw : (fun u => Walk [] u) = (fun u => (preorder u).flatMap declEdges) := by
    funext u
    simpa using Walk_eq_preorder u []
  refine ⟨by rw [hv], rfl, by rw [hv0]; simp, Walk_eq_preorder t v, ?_, ?_⟩
  · simp only [visitFiles]
    rw [hrun, hw]
    simp
  · simp only [visitFiles]
    rw [hrun]
    simp

theorem walk_collects_preorder_witness :
    ["a.go", "b.go"].map exampleParser = [exampleFileA, exampleFileB].map Except.ok
    ∧ Walk [] exampleFileA
        = [ { Left := "A", Right := "int", Label := "value" },
            { Left := "A", Right := "D", Label := "array" },
            { Left := "A", Right := "map[string]F", Label := "map" },
            { Left := "local", Right := "Y", Label := "value" } ]
    ∧ (visitFiles exampleParser ["a.go", "b.go"]).result
        = .ok [ { Left := "A", Right := "int", Label := "value" },
                { Left := "A", Right := "D", Label := "array" },
                { Left := "A", Right := "map[string]F", Label := "map" },
                { Left := "local", Right := "Y", Label := "value" },
                { Left := "G", Right := "chan int", Label := "chan" } ] := by
  have hp : ["a.go", "b.go"].map exampleParser
      = [exampleFileA, exampleFileB].map Except.ok := by
    simp [exampleParser]
  have h := walk_collects_preorder exampleParser ["a.go", "b.go"]
    [exampleFileA, exampleFileB] hp [] (.OtherNode .File) exampleFileA
  refine ⟨hp, ?_, ?_⟩
  · rw [h.2.2.2.1]
    decide
  · rw [h.2.2.2.2.1]
    exact congrArg Except.ok (by decide)

/-! ## The command: usage and parse errors -/

/-- C14: fail-fast on parse errors: when the units before a unit parse and that unit does
not, the run ends with exit code 1, the parser's error on the error channel and nothing on
standard output, whatever edges the earlier units produced; the units after the failing
one are not handed to the parser. -/
theorem parse_error_aborts (parseFile : String → Except String Tree) (publicOnly : Bool)
    (pre : List String) (trees : List Tree) (bad : String) (err : String)
    (post : List String)
    (hpre : pre.map parseFile = trees.map Except.ok)
    (hbad : parseFile bad = .error err) :
    main parseFile publicOnly (pre ++ bad :: post)
        = { exitCode := 1, stdout := "", stderr := [err], parsed := pre ++ [bad] }
    ∧ (main parseFile publicOnly (pre ++ bad :: post)).exitCode ≠ 0
    ∧ (main parseFile publicOnly (pre ++ bad :: post)).stdout = "" := by
  have hrun := visitFilesLoop_error parseFile bad post err hbad pre trees [] [] hpre
  have hmain : main parseFile publicOnly (pre ++ bad :: post)
      = { exitCode := 1, stdout := "", stderr := [err], parsed := pre ++ [bad] } := by
    simp only [main, visitFiles]
    rw [hrun]
    simp
  refine ⟨hmain, ?_, ?_⟩
  · rw [hmain]; simp
  · rw [hmain]

theorem parse_error_aborts_witness :
    ["a.go"].map exampleParser = [exampleFileA].map Except.ok
    ∧ exampleParser "broken.go" = .error "expected 'package', found 'EOF'"
    ∧ main exampleParser false (["a.go"] ++ "broken.go" :: ["b.go"])
        = { exitCode := 1, stdout := "", stderr := ["expected 'package', found 'EOF'"],
            parsed := ["a.go"] ++ ["broken.go"] } := by
  have hp : ["a.go"].map exampleParser = [exampleFileA].map Except.ok := by
    simp [exampleParser]
  have hb : exampleParser "broken.go" = .error "expected 'package', found 'EOF'" := by
    simp [exampleParser]
  exact ⟨hp, hb,
    (parse_error_aborts exampleParser false ["a.go"] [exampleFileA] "broken.go"
      "expected 'package', found 'EOF'" ["b.go"] hp hb).1⟩

/-- C15, as stated, fails: without file names the usage message goes to standard output,
not to the error channel, so standard output is not empty. -/
theorem usage_message_on_stdout :
    (main exampleParser false []).stdout = "Need at least one file name\n"
    ∧ (main exampleParser false []).stderr = []
    ∧ (main exampleParser false []).stdout ≠ "" := by
  decide

/-- C15, amended: without file names the program exits with code 1, writes the usage
message and a line break to standard output, nothing to the error channel, no graph text,
and parses nothing; with at least one file name and all units parsing it exits with code 0
after writing the graph text, followed by a line break, to standard output. -/
theorem usage_and_success (parseFile : String → Except String Tree) (publicOnly : Bool)
    (fnames : List String) (trees : List Tree)
    (hne : fnames ≠ [])
    (hparse : fnames.map parseFile = trees.map Except.ok) :
    main parseFile publicOnly []
        = { exitCode := 1, stdout := "Need at least one file name\n", stderr := [],
            parsed := [] }
    ∧ main parseFile publicOnly fnames
        = { exitCode := 0,
            stdout := ToDot (trees.flatMap (fun t => Walk [] t))
                        { PublicOnly := publicOnly } ++ "\n",
            stderr := [], parsed := fnames } := by
  have hrun := visitFilesLoop_ok parseFile fnames trees [] [] hparse
  refine ⟨rfl, ?_⟩
  have hlen : ¬ fnames.length = 0 := by
    intro h0
    exact hne (List.length_eq_zero.mp h0)
  simp only [main, visitFiles, hlen, if_false]
  rw [hrun]
  simp

theorem usage_and_success_witness :
    ["b.go"] ≠ ([] : List String)
    ∧ ["b.go"].map exampleParser = [exampleFileB].map Except.ok
    ∧ main exampleParser false ["b.go"]
        = { exitCode := 0,
            stdout := ToDot ([exampleFileB].flatMap (fun t => Walk [] t))
                        { PublicOnly := false } ++ "\n",
            stderr := [], parsed := ["b.go"] }
    ∧ ToDot ([exampleFileB].flatMap (fun t => Walk [] t)) { PublicOnly := false } ++ "\n"
        = "DiGraph \x7b\n    \"G\" -> \"chan int\" [label=\"chan\"]\n\x7d\n\n" := by
  have hp : ["b.go"].map exampleParser = [exampleFileB].map Except.ok := by
    simp [exampleParser]
  exact ⟨by decide, hp,
    (usage_and_success exampleParser false ["b.go"] [exampleFileB] (by decide) hp).2,
    by decide⟩

/-! ## Fields, field-list entries and inline types -/

/-- C16, as stated, fails: the declaration `type S struct` with the one entry `A, B int`
declares two fields and gets one edge. -/
theorem one_edge_for_two_names :
    (Visit [] (some (.TypeSpec "S" (.StructType [.mk ["A", "B"] (.Ident "int")])))).1
        = [{ Left := "S", Right := "int", Label := "value" }]
    ∧ namedFieldCount [.mk ["A", "B"] (.Ident "int")] = 2
    ∧ ((Visit [] (some (.TypeSpec "S" (.StructType [.mk ["A", "B"] (.Ident "int")])))).1).length
        ≠ namedFieldCount [.mk ["A", "B"] (.Ident "int")] := by
  decide

/-- C16, amended: for every struct type declaration the edges emitted all have the
declaration's name as `Left` and their number is the number of field-list entries: an
entry counts once, whatever the number of names it declares with its type. -/
theorem edges_per_field_entry (N : String) (fields : List Field) (v : visitor)
    (names : List String) (t : Expr) :
    (∃ new : List edge,
        (Visit v (some (.TypeSpec N (.StructType fields)))).1 = v ++ new
        ∧ new.length = fields.length
        ∧ new.map (fun e => e.Left) = List.replicate fields.length N)
    ∧ ((Visit v (some (.TypeSpec N (.StructType [.mk names t])))).1).length
        = v.length + 1 := by
  constructor
  · refine ⟨fields.map (fieldEdge N), ?_, by simp, ?_⟩
    · simp only [Visit]
      rw [foldl_append_fieldEdge]
    · induction fields with
      | nil => rfl
      | cons f fs ih =>
          simp only [List.map_cons, List.length_cons, List.replicate_succ]
          rw [ih]
          rfl
  · simp only [Visit]
    rw [foldl_append_fieldEdge]
    simp

/-- C17: anonymous inline types resolve to fixed placeholders whatever their members;
`Visit` emits exactly one edge for a field of such a type, and none at the nodes inside
the inline type (the type expression, its field list, its fields).  The walk of
`type A struct` with the field `X struct` holding `Y Z` collects the one edge. -/
theorem anonymous_inline_placeholders (inner : List Field) (N : String)
    (names : List String) (v : visitor) (f : Field) :
    exprNameAndType (.StructType inner) = ("struct\x7b\x7d (unknown name)", "struct")
    ∧ exprNameAndType (.InterfaceType inner) = ("interface (unknown name)", "interface")
    ∧ (Visit v (some (.TypeSpec N (.StructType [.mk names (.StructType inner)])))).1
        = v ++ [{ Left := N, Right := "struct\x7b\x7d (unknown name)", Label := "struct" }]
    ∧ (Visit v (some (.TypeSpec N (.StructType [.mk names (.InterfaceType inner)])))).1
        = v ++ [{ Left := N, Right := "interface (unknown name)", Label := "interface" }]
    ∧ Visit v (some (.ExprNode (.StructType inner))) = (v, true)
    ∧ Visit v (some (.ExprNode (.InterfaceType inner))) = (v, true)
    ∧ Visit v (some (.FieldListNode inner)) = (v, true)
    ∧ Visit v (some (.FieldNode f)) = (v, true)
    ∧ Walk []
        (.node (.TypeSpec "A" (.StructType [.mk ["X"] (.StructType [.mk ["Y"] (.Ident "Z")])]))
          [ .node (.ExprNode (.Ident "A")) [],
            .node (.ExprNode (.StructType [.mk ["X"] (.StructType [.mk ["Y"] (.Ident "Z")])]))
              [ .node (.FieldListNode [.mk ["X"] (.StructType [.mk ["Y"] (.Ident "Z")])])
                  [ .node (.FieldNode (.mk ["X"] (.StructType [.mk ["Y"] (.Ident "Z")])))
                      [ .node (.ExprNode (.Ident "X")) [],
                        .node (.ExprNode (.StructType [.mk ["Y"] (.Ident "Z")]))
                          [ .node (.FieldListNode [.mk ["Y"] (.Ident "Z")])
                              [ .node (.FieldNode (.mk ["Y"] (.Ident "Z")))
                                  [ .node (.ExprNode (.Ident "Y")) [],
                                    .node (.ExprNode (.Ident "Z")) [] ] ] ] ] ] ] ])
        = [{ Left := "A", Right := "struct\x7b\x7d (unknown name)", Label := "struct" }] := by
  refine ⟨rfl, rfl, ?_, ?_, rfl, rfl, rfl, rfl, by decide⟩
  · simp only [Visit]
    rw [foldl_append_fieldEdge]
    rfl
  · simp only [Visit]
    rw [foldl_append_fieldEdge]
    rfl

/-! ## Rendering is not injective, visibility of resolved names -/

/-- C18: field values are not escaped, so rendering is not injective: the edge from `A` to
a name holding the characters of the arrow and the edge from a name holding them to `C`
are different and render to the same text, with and without the filter. -/
theorem ToDot_not_injective :
    ∃ es1 es2 : List edge, es1 ≠ es2
      ∧ (∀ conf : dotConfig, ToDot es1 conf = ToDot es2 conf)
      ∧ ToDot es1 { PublicOnly := false }
          = "DiGraph \x7b\n    \"A\" -> \"B\" -> \"C\" [label=\"value\"]\n\x7d\n" := by
  refine ⟨[{ Left := "A", Right := "B\" -> \"C", Label := "value" }],
    [{ Left := "A\" -> \"B", Right := "C", Label := "value" }], by decide, ?_, by decide⟩
  intro conf
  obtain ⟨b⟩ := conf
  cases b <;> decide

/-- An edge whose `Right` starts with a character whose first byte is no upper-case
letter does not pass `public`. -/
theorem public_false_of_right_head (L R lab : String) (c : Char) (rest : List Char)
    (hR : R.data = c :: rest) (hc : isUpperLatin1 (utf8FirstByte c) = false) :
    public { Left := L, Right := R, Label := lab } = false := by
  cases hp : public { Left := L, Right := R, Label := lab } with
  | false => rfl
  | true =>
      obtain ⟨l, ls, r, rs, _, h2, _, h4⟩ := (public_iff _).mp hp
      simp only at h2
      rw [hR] at h2
      injection h2 with h5 _
      rw [← h5, hc] at h4
      exact absurd h4 (by decide)

/-- C19: under `PublicOnly` every edge whose field type resolves with label `map`, `chan`,
`struct`, `interface` or `unknown` is dropped whatever the declaring type's name: the
resolved name begins with `m`, `c`, `<`, `s`, `i` or `u`, so `public` is false. -/
theorem public_false_of_lowercase_kinds (e : Expr) (Left : String)
    (h : (exprNameAndType e).2 ∈ ["map", "chan", "struct", "interface", "unknown"]) :
    public { Left := Left, Right := (exprNameAndType e).1, Label := (exprNameAndType e).2 }
        = false
    ∧ ∃ c rest, (exprNameAndType e).1.data = c :: rest
        ∧ c ∈ ['m', 'c', '<', 's', 'i', 'u'] := by
  have key : ∃ c rest, (exprNameAndType e).1.data = c :: rest
      ∧ c ∈ ['m', 'c', '<', 's', 'i', 'u'] := by
    cases e with
    | Ident n => simp [exprNameAndType] at h
    | StarExpr x => simp [exprNameAndType] at h
    | ArrayType l x => simp [exprNameAndType] at h
    | SelectorExpr x sel => simp [exprNameAndType] at h
    | MapType k v =>
        refine ⟨'m', "ap[".data ++ (exprName k).data ++ "]".data ++ (exprName v).data, ?_,
          by decide⟩
        simp [exprNameAndType, exprName, String.data_append]
    | ChanType dir x =>
        by_cases hs : dir = SEND
        · refine ⟨'c', "han<-".data ++ " ".data ++ (exprName x).data, ?_, by decide⟩
          simp [exprNameAndType, exprName, String.data_append, hs]
        · by_cases hr : dir = RECV
          · refine ⟨'<', "-chan".data ++ " ".data ++ (exprName x).data, ?_, by decide⟩
            have hne : ¬ (RECV = SEND) := by decide
            subst hr
            simp [exprNameAndType, exprName, String.data_append, hne]
          · refine ⟨'c', "han".data ++ " ".data ++ (exprName x).data, ?_, by decide⟩
            simp [exprNameAndType, exprName, String.data_append, hs, hr]
    | StructType fs => exact ⟨'s', "truct\x7b\x7d (unknown name)".data, rfl, by decide⟩
    | InterfaceType ms => exact ⟨'i', "nterface (unknown name)".data, rfl, by decide⟩
    | Other k =>
        refine ⟨'u', "nhandled (".data ++ k.goType.data ++ ")".data, ?_, by decide⟩
        simp [exprNameAndType, String.data_append]
  refine ⟨?_, key⟩
  obtain ⟨c, rest, hdata, hc⟩ := key
  apply public_false_of_right_head Left _ _ c rest hdata
  simp only [List.mem_cons, List.mem_singleton, List.not_mem_nil, or_false] at hc
  rcases hc with rfl | rfl | rfl | rfl | rfl | rfl <;> decide

theorem public_false_of_lowercase_kinds_witness :
    (exprNameAndType (.MapType (.Ident "string") (.Ident "Widget"))).2
        ∈ ["map", "chan", "struct", "interface", "unknown"]
    ∧ public { Left := "Helper",
               Right := (exprNameAndType (.MapType (.Ident "string") (.Ident "Widget"))).1,
               Label := (exprNameAndType (.MapType (.Ident "string") (.Ident "Widget"))).2 }
        = false :=
  ⟨by decide,
   (public_false_of_lowercase_kinds (.MapType (.Ident "string") (.Ident "Widget")) "Helper"
      (by decide)).1⟩

/-! ## Rendering is injective on well-formed edges -/

/-- Two lists that agree after a delimiter neither holds before it agree before and
after it. -/
theorem split_at_first {α : Type} (d : α) :
    ∀ (a b x y : List α), d ∉ a → d ∉ b → a ++ d :: x = b ++ d :: y → a = b ∧ x = y
  | [], [], x, y, _, _, h => by
      simp only [List.nil_append, List.cons.injEq, true_and] at h
      exact ⟨rfl, h⟩
  | [], b0 :: b, x, y, _, hb, h => by
      simp only [List.nil_append, List.cons_append, List.cons.injEq] at h
      exact absurd (h.1 ▸ List.mem_cons_self _ _) hb
  | a0 :: a, [], x, y, ha, _, h => by
      simp only [List.nil_append, List.cons_append, List.cons.injEq] at h
      exact absurd (h.1 ▸ List.mem_cons_self _ _) ha
  | a0 :: a, b0 :: b, x, y, ha, hb, h => by
      simp only [List.cons_append, List.cons.injEq] at h
      have ha2 : d ∉ a := fun hm => ha (List.mem_cons_of_mem _ hm)
      have hb2 : d ∉ b := fun hm => hb (List.mem_cons_of_mem _ hm)
      obtain ⟨h1, h2⟩ := split_at_first d a b x y ha2 hb2 h.2
      exact ⟨by rw [h.1, h1], h2⟩

/-- The characters of the output line of an edge. -/
theorem dotLine_data (e : edge) :
    (dotLine e).data
      = ' ' :: ' ' :: ' ' :: ' ' :: '"' ::
          (e.Left.data ++ '"' :: ' ' :: '-' :: '>' :: ' ' :: '"' ::
            (e.Right.data ++ '"' :: (labelChars e ++ ['\n']))) := by
  unfold dotLine labelChars
  by_cases hl : e.Label = "" <;> simp [hl, String.data_append]

theorem plainText_iff (s : String) :
    plainText s = true ↔ '"' ∉ s.data ∧ '\n' ∉ s.data := by
  simp [plainText]

theorem labelChars_no_newline (e : edge) (h : '\n' ∉ e.Label.data) :
    '\n' ∉ labelChars e := by
  unfold labelChars
  by_cases hl : e.Label = ""
  · simp [hl]
  · simp [hl, h]

theorem label_eq_of_labelChars_eq (e1 e2 : edge) (h : labelChars e1 = labelChars e2) :
    e1.Label = e2.Label := by
  unfold labelChars at h
  by_cases h1 : e1.Label = "" <;> by_cases h2 : e2.Label = ""
  · rw [h1, h2]
  · simp [h1, h2] at h
  · simp [h1, h2] at h
  · simp only [h1, h2, if_false] at h
    have h3 := List.append_cancel_right h
    have h4 := List.append_cancel_left h3
    exact String.ext h4

/-- Two well-formed edges whose output lines start two equal texts are equal, and so are
the remainders of the texts. -/
theorem dotLine_append_inj (e1 e2 : edge) (r1 r2 : List Char)
    (w1 : wellFormed e1 = true) (w2 : wellFormed e2 = true)
    (h : (dotLine e1).data ++ r1 = (dotLine e2).data ++ r2) :
    e1 = e2 ∧ r1 = r2 := by
  simp only [wellFormed, Bool.and_eq_true, plainText_iff] at w1 w2
  obtain ⟨⟨⟨q1L, _⟩, ⟨q1R, _⟩⟩, ⟨_, n1K⟩⟩ := w1
  obtain ⟨⟨⟨q2L, _⟩, ⟨q2R, _⟩⟩, ⟨_, n2K⟩⟩ := w2
  rw [dotLine_data, dotLine_data] at h
  simp only [List.cons_append, List.append_assoc, List.cons.injEq, true_and] at h
  obtain ⟨hL, h⟩ := split_at_first '"' _ _ _ _ q1L q2L h
  simp only [List.cons.injEq, true_and] at h
  obtain ⟨hR, h⟩ := split_at_first '"' _ _ _ _ q1R q2R h
  simp only [List.nil_append] at h
  obtain ⟨hK, hr⟩ := split_at_first '\n' _ _ _ _
    (labelChars_no_newline e1 n1K) (labelChars_no_newline e2 n2K) h
  refine ⟨?_, hr⟩
  obtain ⟨L1, R1, K1⟩ := e1
  obtain ⟨L2, R2, K2⟩ := e2
  have hL2 : L1 = L2 := String.ext hL
  have hR2 : R1 = R2 := String.ext hR
  have hK2 : K1 = K2 := label_eq_of_labelChars_eq _ _ hK
  rw [hL2, hR2, hK2]

/-- Two lists of well-formed edges whose lines, followed by the closing line, give the same
text are equal. -/
theorem lines_inj : ∀ (es1 es2 : List edge),
    es1.all wellFormed = true → es2.all wellFormed = true →
    (String.join (es1.map dotLine)).data ++ "\x7d\n".data
      = (String.join (es2.map dotLine)).data ++ "\x7d\n".data →
    es1 = es2
  | [], [], _, _, _ => rfl
  | [], e :: es, _, _, h => by
      simp only [List.map_nil, List.map_cons, join_cons, String.data_append, dotLine_data] at h
      simp [String.join] at h
  | e :: es, [], _, _, h => by
      simp only [List.map_nil, List.map_cons, join_cons, String.data_append, dotLine_data] at h
      simp [String.join] at h
  | e1 :: es1, e2 :: es2, w1, w2, h => by
      simp only [List.all_cons, Bool.and_eq_true] at w1 w2
      simp only [List.map_cons, join_cons, String.data_append, List.append_assoc] at h
      obtain ⟨he, hr⟩ := dotLine_append_inj e1 e2 _ _ w1.1 w2.1 h
      rw [he, lines_inj es1 es2 w1.2 w2.2 hr]

/-- C20: rendering is injective on well-formed edges: two edge lists in which no `Left`,
`Right` or `Label` holds a double-quote or a line break and that render, without the
filter, to the same text are the same list: same edges, same order, same labels. -/
theorem ToDot_injective_on_wellFormed (es1 es2 : List edge)
    (w1 : es1.all wellFormed = true) (w2 : es2.all wellFormed = true)
    (h : ToDot es1 { PublicOnly := false } = ToDot es2 { PublicOnly := false }) :
    es1 = es2 := by
  simp only [ToDot] at h
  rw [foldl_unfiltered, foldl_unfiltered] at h
  have hd := congrArg String.data h
  simp only [String.data_append, List.append_assoc] at hd
  exact lines_inj es1 es2 w1 w2 (List.append_cancel_left hd)

theorem ToDot_injective_on_wellFormed_witness :
    [({ Left := "A", Right := "int", Label := "value" } : edge),
        { Left := "A", Right := "D", Label := "" }].all wellFormed = true
    ∧ ToDot [{ Left := "A", Right := "int", Label := "value" },
             { Left := "A", Right := "D", Label := "" }] { PublicOnly := false }
        = ToDot ([{ Left := "A", Right := "int", Label := "value" }]
                  ++ [{ Left := "A", Right := "D", Label := "" }]) { PublicOnly := false }
    ∧ [({ Left := "A", Right := "int", Label := "value" } : edge),
        { Left := "A", Right := "D", Label := "" }]
        = [{ Left := "A", Right := "int", Label := "value" }]
            ++ [{ Left := "A", Right := "D", Label := "" }] :=
  ⟨by decide, rfl,
   ToDot_injective_on_wellFormed _ _ (by decide) (by decide) rfl⟩

end Typegraph
